import Mathlib

/-!
Verification of the wrok task/time-tracking TUI engine.

Shallow embedding of the Go sources:
  internal/tui/list_model.go  (ListModel: ranked search, selection, pagination)
  internal/db/session_service.go (StartSession / StopActiveSession)
  internal/tui/colors.go      (ShimmerState animation)
  internal/tui/timer_model.go (renderBigClock digit derivation)
  internal/models/task.go     (Task / Tag / Session records)

Go strings are modelled as `List Char` (the sources only manipulate them
bytewise over printable ASCII).  Go `int` fields of the list model are
modelled as `Nat`: every value stored in them is non-negative, and at each
site where Go's `x - 1` may transiently be negative we checked that the
truncated `Nat` subtraction yields the same observable result (comments at
the sites).  Go integer division panics on a zero divisor; the two
functions that divide by `tasksPerPage` therefore return `Option`,
with `none` marking the division-by-zero panic.
-/

namespace Wrok

/-- Go strings, as lists of characters. -/
abbrev Str := List Char

/-- Convert a Lean string literal to the `Str` model. -/
def str (s : String) : Str := s.data

/-- The ASCII whitespace characters recognised by Go's `unicode.IsSpace`
(the sources only ever trim query strings built from printable ASCII plus
these). -/
def goIsSpace (c : Char) : Bool :=
  c = ' ' || c = '\t' || c = '\n' || c = '\x0b' || c = '\x0c' || c = '\r'

/-- ASCII lowercasing of one character (Go `strings.ToLower`, restricted to
the ASCII range that the sources feed it). -/
def asciiToLower (c : Char) : Char :=
  if 'A' ≤ c ∧ c ≤ 'Z' then Char.ofNat (c.toNat + 32) else c

/-- Go `strings.ToLower`. -/
def goToLower (s : Str) : Str := s.map asciiToLower

/-- Leading-whitespace trim (first half of Go `strings.TrimSpace`). -/
def goTrimLeft (s : Str) : Str := s.dropWhile goIsSpace

/-- Trailing-whitespace trim (second half of Go `strings.TrimSpace`). -/
def goTrimRight (s : Str) : Str := (s.reverse.dropWhile goIsSpace).reverse

/-- Go `strings.TrimSpace`. -/
def goTrimSpace (s : Str) : Str := goTrimRight (goTrimLeft s)

/-- Go `strings.HasPrefix s p`. -/
def goStartsWith (s p : Str) : Bool := decide (p <+: s)

/-- Go `strings.HasSuffix s p`. -/
def goEndsWith (s p : Str) : Bool := decide (p <:+ s)

/-- Go `strings.Contains s sub`. -/
def goContains (s sub : Str) : Bool := decide (sub <:+: s)

/-- A task tag (internal/models/task.go `Tag`). -/
structure Tag where
  id : Nat
  name : Str
  deriving DecidableEq

/-- A task record (internal/models/task.go `Task`); only the fields the
verified subsystems read.  `priority` is a Go `int` with 0 = none, 1..3 =
low/medium/high; `status` is one of "todo", "done", "archived". -/
structure Task where
  id : Nat
  title : Str
  project : Str
  jiraID : Str
  note : Str
  tags : List Tag
  priority : Int
  status : Str
  deriving DecidableEq

/-- Decimal rendering of a task id (Go `fmt.Sprintf "%d"`). -/
def natToStr (n : Nat) : Str := (Nat.repr n).data

/-- The searchable fields of a task, in the fixed order built by
`searchInMemoryTasks` (list_model.go lines 272-297): id, title, project,
jira id, note, tag names, priority synonyms, status. -/
def searchableFields (t : Task) : List Str :=
  [natToStr t.id, t.title, t.project, t.jiraID, t.note]
    ++ t.tags.map Tag.name
    ++ (if t.priority = 1 then [str "low", str "1"]
        else if t.priority = 2 then [str "medium", str "med", str "2"]
        else if t.priority = 3 then [str "high", str "3"]
        else [])
    ++ [t.status]

/-- Match strength recorded in the Go local `matchType`
("exact" / "prefix" / "suffix" / "fuzzy"; `none` models `""`). -/
inductive Tier where
  | exact
  | starts
  | ends
  | fuzzy
  deriving DecidableEq

/-- The per-task field loop of `searchInMemoryTasks` (list_model.go lines
299-332): walk the fields, break out with `exact` on the first exactly
equal field, otherwise record the match class of the first matching field
(the `matchType == ""` guards keep later fields from upgrading it). -/
def classifyLoop (q : Str) : List Str → Option Tier → Option Tier
  | [], mt => mt
  | field :: rest, mt =>
    if field = [] then classifyLoop q rest mt
    else
      let fl := goToLower field
      if fl = q then some Tier.exact
      else
        classifyLoop q rest
          (if mt = none then
            (if goStartsWith fl q then some Tier.starts
             else if goEndsWith fl q then some Tier.ends
             else if goContains fl q then some Tier.fuzzy
             else none)
          else mt)

/-- Which tier (if any) `searchInMemoryTasks` files a task under, for an
already normalised query. -/
def classifyTask (q : Str) (t : Task) : Option Tier :=
  classifyLoop q (searchableFields t) none

/-- One step of the accumulation in `searchInMemoryTasks`: append the task
to the accumulator list of its tier. -/
def searchAccStep (q : Str) (acc : List Task × List Task × List Task × List Task)
    (t : Task) : List Task × List Task × List Task × List Task :=
  match acc with
  | (e, p, s, f) =>
    match classifyTask q t with
    | some Tier.exact => (e ++ [t], p, s, f)
    | some Tier.starts => (e, p ++ [t], s, f)
    | some Tier.ends => (e, p, s ++ [t], f)
    | some Tier.fuzzy => (e, p, s, f ++ [t])
    | none => (e, p, s, f)

/-- Go `searchInMemoryTasks` (list_model.go lines 260-355): normalise the
query; empty query returns the input unchanged; otherwise partition the
tasks into exact/prefix/suffix/fuzzy accumulators in input order and
concatenate them in that priority order. -/
def searchInMemoryTasks (query : Str) (tasks : List Task) : List Task :=
  let q := goToLower (goTrimSpace query)
  if q = [] then tasks
  else
    match tasks.foldl (searchAccStep q) ([], [], [], []) with
    | (e, p, s, f) => e ++ p ++ s ++ f

/-- Which UI element has focus (list_model.go `Focus`). -/
inductive Focus where
  | table
  | search
  | modal
  deriving DecidableEq

/-- The list TUI model (list_model.go `ListModel`).  The `shimmer` field of
the Go struct is a pointer to a `ShimmerState` mutated in place; that
animation state is modelled separately by `ShimmerState` below and is not
part of this value. -/
structure ListModel where
  width : Nat
  height : Nat
  originalTasks : List Task
  tasks : List Task
  selectedTask : Nat
  focus : Focus
  searchActive : Bool
  searchQuery : Str
  searchPersisted : Bool
  currentPage : Nat
  tasksPerPage : Nat
  deriving DecidableEq

/-- Go `NewListModel` (list_model.go lines 48-68). `width`, `height` and
`tasksPerPage` are zero-valued Go fields not set by the constructor. -/
def NewListModel (tasks : List Task) : ListModel where
  width := 0
  height := 0
  originalTasks := tasks
  tasks := tasks
  selectedTask := 0
  focus := Focus.table
  searchActive := false
  searchQuery := []
  searchPersisted := false
  currentPage := 0
  tasksPerPage := 0

/-- The `tea.WindowSizeMsg` branch of `Update` (list_model.go lines
96-108): recompute the page size from the height, with a floor of 3.
(`h - 12` is Go int arithmetic; when it is negative the clamp to 3 fires
in Go exactly as truncated `Nat` subtraction does here.) -/
def updateWindowSize (m : ListModel) (w h : Nat) : ListModel :=
  let availableHeight := h - 12
  let availableHeight := if availableHeight < 3 then 3 else availableHeight
  { m with width := w, height := h, tasksPerPage := availableHeight }

/-- Go `applyLiveSearch` (list_model.go lines 235-256). -/
def applyLiveSearch (m : ListModel) : ListModel :=
  let m := if m.searchQuery = [] then { m with tasks := m.originalTasks }
           else { m with tasks := searchInMemoryTasks m.searchQuery m.originalTasks }
  let m := { m with selectedTask := 0, currentPage := 0 }
  if m.tasks.length > 0 ∧ m.tasks.length ≤ m.selectedTask then
    { m with selectedTask := m.tasks.length - 1 }
  else m

/-- The keys handled by `handleSearchKeys`; `other` stands for every
filtered-out navigation/modifier key. -/
inductive SearchKey where
  | esc
  | enter
  | backspace
  | char (c : Char)
  | other

/-- Go `handleSearchKeys` (list_model.go lines 172-232).  The backspace
branch drops the last byte of the query (only single printable ASCII
characters are ever appended, so last byte = last character). -/
def handleSearchKeys (m : ListModel) (k : SearchKey) : ListModel :=
  match k with
  | SearchKey.esc =>
    { m with focus := Focus.table, searchActive := false, searchPersisted := false,
             searchQuery := [], tasks := m.originalTasks,
             selectedTask := 0, currentPage := 0 }
  | SearchKey.enter =>
    { m with focus := Focus.table, searchActive := false, searchPersisted := true }
  | SearchKey.backspace =>
    if m.searchQuery.length > 0 then
      applyLiveSearch { m with searchQuery := m.searchQuery.dropLast }
    else m
  | SearchKey.char c =>
    if 32 ≤ c.toNat ∧ c.toNat ≤ 126 then
      applyLiveSearch { m with searchQuery := m.searchQuery ++ [c] }
    else m
  | SearchKey.other => m

/-- The `/` hotkey branch of `Update` (list_model.go lines 143-148). -/
def enterSearchMode (m : ListModel) : ListModel :=
  { m with focus := Focus.search, searchActive := true }

/-- Go `moveSelectionUp` (list_model.go lines 358-370). -/
def moveSelectionUp (m : ListModel) : ListModel :=
  if m.selectedTask > 0 then
    let m := { m with selectedTask := m.selectedTask - 1 }
    let currentPageStart := m.currentPage * m.tasksPerPage
    if m.selectedTask < currentPageStart ∧ m.currentPage > 0 then
      { m with currentPage := m.currentPage - 1 }
    else m
  else m

/-- Go `moveSelectionDown` (list_model.go lines 373-386).  The computation of
`maxPages` divides by `tasksPerPage`; a zero page size is a Go run-time
panic, modelled as `none`.  (`currentPageEnd` is `min ((p+1)*tpp - 1) (len-1)`
in Go ints; both operands are revisited only when `tasksPerPage ≥ 1` and
the list is non-empty, where they are non-negative, because a zero page
size already panicked at `maxPages`.) -/
def moveSelectionDown (m : ListModel) : Option ListModel :=
  if m.selectedTask < m.tasks.length - 1 then
    let m1 := { m with selectedTask := m.selectedTask + 1 }
    let currentPageEnd := min ((m1.currentPage + 1) * m1.tasksPerPage - 1)
      (m1.tasks.length - 1)
    if m1.tasksPerPage = 0 then none
    else
      let maxPages := (m1.tasks.length + m1.tasksPerPage - 1) / m1.tasksPerPage
      if m1.selectedTask > currentPageEnd ∧ m1.currentPage < maxPages - 1 then
        some { m1 with currentPage := m1.currentPage + 1 }
      else some m1
  else some m

/-- Go `prevPage` (list_model.go lines 389-404).  (With a zero page size the
Go `min ((p+1)*tpp - 1) (len-1)` is `-1` and the selection is first set to
`-1`, then raised to `minIndex = 0`; truncated `Nat` arithmetic lands on
the same final state.) -/
def prevPage (m : ListModel) : ListModel :=
  if m.currentPage > 0 then
    let m := { m with currentPage := m.currentPage - 1 }
    let maxIndex := min ((m.currentPage + 1) * m.tasksPerPage - 1) (m.tasks.length - 1)
    let m := if m.selectedTask > maxIndex then { m with selectedTask := maxIndex } else m
    let minIndex := m.currentPage * m.tasksPerPage
    if m.selectedTask < minIndex then { m with selectedTask := minIndex } else m
  else m

/-- Go `nextPage` (list_model.go lines 407-423).  The first statement divides
by `tasksPerPage`: a zero page size panics before anything else, modelled
as `none`. -/
def nextPage (m : ListModel) : Option ListModel :=
  if m.tasksPerPage = 0 then none
  else
    let maxPages := (m.tasks.length + m.tasksPerPage - 1) / m.tasksPerPage
    if m.currentPage < maxPages - 1 then
      let m := { m with currentPage := m.currentPage + 1 }
      let minIndex := m.currentPage * m.tasksPerPage
      let m := if m.selectedTask < minIndex then { m with selectedTask := minIndex } else m
      let maxIndex := min ((m.currentPage + 1) * m.tasksPerPage - 1) (m.tasks.length - 1)
      if m.selectedTask > maxIndex then some { m with selectedTask := maxIndex } else some m
    else some m

/-- Go `refreshTasks` (list_model.go lines 484-508), applied to the task list
`fetched` returned by the persistence collaborator's `GetTasks`: replace
the displayed tasks wholesale and clamp the selection if it fell out of
range.  The query, search flags and current page are not touched. -/
def refreshTasks (m : ListModel) (fetched : List Task) : ListModel :=
  let m := { m with tasks := fetched }
  if m.tasks.length ≤ m.selectedTask then
    if m.tasks.length > 0 then { m with selectedTask := m.tasks.length - 1 }
    else { m with selectedTask := 0 }
  else m

/-- Shimmer configuration (colors.go `ShimmerConfig`).  The numeric fields
are Go ints / float64; exact rationals model the float64 arithmetic of the
animation (the defaults and every quantity the claims touch are exactly
representable in both). -/
structure ShimmerConfig where
  enabled : Bool
  reduceMotion : Bool
  speedMs : ℚ
  widthFrac : ℚ
  cycleMs : ℚ
  pauseBetweenMs : ℚ
  deriving DecidableEq

/-- Go `DefaultShimmerConfig` (colors.go lines 58-67). -/
def DefaultShimmerConfig : ShimmerConfig where
  enabled := true
  reduceMotion := false
  speedMs := 100
  widthFrac := 1/4
  cycleMs := 1800
  pauseBetweenMs := 500

/-- Shimmer animation state (colors.go `ShimmerState`).  Times are in
milliseconds; `visibleLen` is a Go int. -/
structure ShimmerState where
  center : ℚ
  lastUpdate : ℚ
  active : Bool
  visibleLen : Int
  config : ShimmerConfig
  supportsTrueColor : Bool
  isPaused : Bool
  pauseStartTime : ℚ
  deriving DecidableEq

/-- Go `NewShimmerState` (colors.go lines 70-78), with the creation time and
the terminal's truecolor support passed explicitly. -/
def NewShimmerState (config : ShimmerConfig) (nowMs : ℚ) (trueColor : Bool) :
    ShimmerState where
  center := 0
  lastUpdate := nowMs
  active := config.enabled && !config.reduceMotion
  visibleLen := 0
  config := config
  supportsTrueColor := trueColor
  isPaused := false
  pauseStartTime := 0

/-- Go `ShimmerState.Update` (colors.go lines 87-136), with `time.Now()`
passed explicitly in milliseconds.  (Go compares
`elapsed.Milliseconds() < int64(SpeedMs)`; for the non-negative elapsed
times of a monotone clock, truncating to whole milliseconds and comparing
with an integer bound agrees with the exact rational comparison used
here.) -/
def ShimmerState.update (s : ShimmerState) (nowMs : ℚ) (visibleLen : Int) :
    ShimmerState :=
  if !s.active || s.config.reduceMotion then s
  else
    let elapsed := nowMs - s.lastUpdate
    if elapsed < s.config.speedMs then s
    else
      let s := { s with visibleLen := visibleLen }
      if visibleLen ≤ 0 then s
      else if s.isPaused then
        let pauseElapsed := nowMs - s.pauseStartTime
        let s :=
          if s.config.pauseBetweenMs ≤ pauseElapsed then
            { s with isPaused := false,
                     center := -(visibleLen : ℚ) * s.config.widthFrac }
          else s
        { s with lastUpdate := nowMs }
      else
        let ticksPerCycle := s.config.cycleMs / s.config.speedMs
        let totalDistance := (visibleLen : ℚ) * (1 + 2 * s.config.widthFrac)
        let velocity := totalDistance / ticksPerCycle
        let center := s.center + velocity
        let maxCenter := (visibleLen : ℚ) + (visibleLen : ℚ) * s.config.widthFrac
        if maxCenter ≤ center then
          { s with center := maxCenter, isPaused := true,
                   pauseStartTime := nowMs, lastUpdate := nowMs }
        else
          { s with center := center, lastUpdate := nowMs }

/-- Go `ShimmerState.Reset` (colors.go lines 139-144), with `time.Now()`
passed explicitly. -/
def ShimmerState.reset (s : ShimmerState) (nowMs : ℚ) : ShimmerState :=
  { s with center := 0, lastUpdate := nowMs, isPaused := false,
           pauseStartTime := 0 }

/-- A time-tracking session (internal/models/session.go `Session`).
Timestamps are in integer nanoseconds (Go `time.Time` / `time.Duration`
resolution); `durationSeconds` is the Go int `DurationSeconds`. -/
structure Session where
  id : Nat
  taskID : Nat
  startedAtNs : Nat
  finishedAtNs : Option Nat
  durationSeconds : Nat
  deriving DecidableEq

/-- The persistence collaborator's state: its task table and session
table, in creation order (the gorm database behind session_service.go). -/
structure DBState where
  tasks : List Task
  sessions : List Session
  deriving DecidableEq

/-- The two error outcomes of `StartSession` (session_service.go lines
14-16 and 21-24): "task #%d not found" and "session already active for
task #%d". -/
inductive StartSessionError where
  | notFound (taskID : Nat)
  | conflict (activeTaskID : Nat)
  deriving DecidableEq

/-- Go `StartSession` (session_service.go lines 10-40), with `time.Now()`
passed explicitly: look the task up by id; refuse with a conflict error if
any session has no finish time; otherwise create a running session.  On
either error the database is untouched (the Go code returns before its
`DB.Create`). -/
def StartSession (db : DBState) (taskID : Nat) (nowNs : Nat) :
    Except StartSessionError (DBState × Session) :=
  match db.tasks.find? (fun t => t.id == taskID) with
  | none => Except.error (StartSessionError.notFound taskID)
  | some _ =>
    match db.sessions.find? (fun s => s.finishedAtNs == none) with
    | some active => Except.error (StartSessionError.conflict active.taskID)
    | none =>
      let session : Session :=
        { id := db.sessions.length + 1, taskID := taskID,
          startedAtNs := nowNs, finishedAtNs := none, durationSeconds := 0 }
      Except.ok ({ db with sessions := db.sessions ++ [session] }, session)

/-- The mutation `StopActiveSession` (session_service.go lines 52-55)
applies to the active session it found: set the finish time and store
`int(now.Sub(startedAt).Seconds())`, i.e. the elapsed nanoseconds divided
by 10^9 rounded toward zero. -/
def stopSessionAt (s : Session) (nowNs : Nat) : Session :=
  { s with finishedAtNs := some nowNs,
           durationSeconds := (nowNs - s.startedAtNs) / 1000000000 }

/-- The hours/minutes/seconds derivation of `renderBigClock`
(timer_model.go lines 244-247): `int(d.Hours())`, `int(d.Minutes()) % 60`,
`int(d.Seconds()) % 60` for an elapsed duration of `elapsedNs`
nanoseconds. -/
def renderBigClockHMS (elapsedNs : Nat) : Nat × Nat × Nat :=
  (elapsedNs / 3600000000000, (elapsedNs / 60000000000) % 60,
   (elapsedNs / 1000000000) % 60)

/-! ## Spec-worded search definitions

The two definitions below follow the words of spec §4.4 ("classify by the
first field match and keep the highest-priority tier achieved by any
field"), to be compared with `searchInMemoryTasks` / `classifyTask`, which
are translated from the code. -/

/-- The tier a single field achieves for a query, per spec §4.4:
(1) exact equality, (2) starts with, (3) ends with, (4) contains. -/
def specFieldTier (q f : Str) : Option Tier :=
  if f = [] then none
  else
    let fl := goToLower f
    if fl = q then some Tier.exact
    else if goStartsWith fl q then some Tier.starts
    else if goEndsWith fl q then some Tier.ends
    else if goContains fl q then some Tier.fuzzy
    else none

/-- Rank of a tier option, lower = stronger (none = no match, weakest). -/
def tierRank : Option Tier → Nat
  | some Tier.exact => 0
  | some Tier.starts => 1
  | some Tier.ends => 2
  | some Tier.fuzzy => 3
  | none => 4

/-- The highest-priority tier achieved by ANY searchable field of a
record — the spec's words for where a record is placed. -/
def specBestTier (q : Str) (t : Task) : Option Tier :=
  ((searchableFields t).map (specFieldTier q)).foldl
    (fun best cur => if tierRank cur < tierRank best then cur else best) none

/-- The ranked search as spec §4.4 words it: each record under the highest
tier achieved by any of its fields, tiers concatenated in priority order,
original order kept within a tier. -/
def specRankedSearch (query : Str) (tasks : List Task) : List Task :=
  let q := goToLower (goTrimSpace query)
  if q = [] then tasks
  else
    tasks.filter (fun t => specBestTier q t == some Tier.exact)
      ++ tasks.filter (fun t => specBestTier q t == some Tier.starts)
      ++ tasks.filter (fun t => specBestTier q t == some Tier.ends)
      ++ tasks.filter (fun t => specBestTier q t == some Tier.fuzzy)

/-- Declarative description of what the code's per-record loop computes:
an exact match by any field wins; otherwise the record is classified by
the FIRST field that contains the query (prefix beats suffix beats
contains within that one field).  Proved equal to `classifyLoop` below. -/
def firstFieldMatch (q : Str) (fs : List Str) : Option Tier :=
  if ∃ f ∈ fs, f ≠ [] ∧ goToLower f = q then some Tier.exact
  else
    match fs.filter (fun f => !f.isEmpty && goContains (goToLower f) q) with
    | [] => none
    | f :: _ =>
      let fl := goToLower f
      if goStartsWith fl q then some Tier.starts
      else if goEndsWith fl q then some Tier.ends
      else some Tier.fuzzy

/-! ## String lemmas: trimming a shortened query -/

theorem goTrimRight_concat_space {a : Str} {c : Char} (hc : goIsSpace c = true) :
    goTrimRight (a ++ [c]) = goTrimRight a := by
  unfold goTrimRight
  rw [List.reverse_append, List.reverse_singleton, List.singleton_append,
    List.dropWhile_cons_of_pos hc]

theorem goTrimRight_concat_nonspace {a : Str} {c : Char}
    (hc : ¬goIsSpace c = true) : goTrimRight (a ++ [c]) = a ++ [c] := by
  unfold goTrimRight
  rw [List.reverse_append, List.reverse_singleton, List.singleton_append,
    List.dropWhile_cons_of_neg hc, List.reverse_cons, List.reverse_reverse]

theorem goTrimRight_prefix_self (x : Str) : goTrimRight x <+: x := by
  have h := (List.dropWhile_suffix (l := x.reverse) (p := goIsSpace)).reverse
  rwa [List.reverse_reverse] at h

theorem goTrimSpace_infix_of_concat (a : Str) (c : Char) :
    goTrimSpace a <:+: goTrimSpace (a ++ [c]) := by
  unfold goTrimSpace goTrimLeft
  rw [List.dropWhile_append]
  by_cases he : (a.dropWhile goIsSpace).isEmpty
  · rw [if_pos he]
    rw [List.isEmpty_iff] at he
    rw [he]
    exact List.nil_infix
  · rw [if_neg he]
    by_cases hc : goIsSpace c = true
    · rw [goTrimRight_concat_space hc]
    · rw [goTrimRight_concat_nonspace hc]
      exact ((goTrimRight_prefix_self _).trans (List.prefix_append _ _)).isInfix

/-- Dropping the last character of a query can only shrink (as an infix)
its trimmed form. -/
theorem goTrimSpace_infix_of_dropLast (l : Str) :
    goTrimSpace l.dropLast <:+: goTrimSpace l := by
  rcases eq_or_ne l [] with rfl | hl
  · exact List.infix_rfl
  · conv_rhs => rw [← List.dropLast_concat_getLast hl]
    exact goTrimSpace_infix_of_concat _ _

/-- The normalised form of a query shortened by one character is an infix
of the normalised form of the query. -/
theorem normalised_infix_of_dropLast (q : Str) :
    goToLower (goTrimSpace q.dropLast) <:+: goToLower (goTrimSpace q) :=
  (goTrimSpace_infix_of_dropLast q).map asciiToLower

/-! ## Characterising the per-record classification loop -/

/-- Once `matchType` is non-empty, only a later exact match can change the
classification. -/
theorem classifyLoop_some (q : Str) (fs : List Str) (mt : Tier) :
    classifyLoop q fs (some mt) =
      if ∃ f ∈ fs, f ≠ [] ∧ goToLower f = q then some Tier.exact
      else some mt := by
  induction fs with
  | nil => simp [classifyLoop]
  | cons f rest ih =>
    by_cases hf : f = []
    · rw [classifyLoop, if_pos hf, ih]
      simp [List.mem_cons, hf]
    · by_cases hq : goToLower f = q
      · rw [classifyLoop, if_neg hf, if_pos hq, if_pos]
        exact ⟨f, List.mem_cons_self f rest, hf, hq⟩
      · rw [classifyLoop, if_neg hf, if_neg hq,
          if_neg (by simp : ¬(some mt = Option.none)), ih]
        simp [List.mem_cons, hq]

/-- An empty field is skipped by the classification. -/
theorem firstFieldMatch_cons_nil (q : Str) (rest : List Str) :
    firstFieldMatch q ([] :: rest) = firstFieldMatch q rest := by
  unfold firstFieldMatch
  simp [List.filter_cons]

/-- The classification loop started empty computes: exact if any field is
exactly the query, else the class of the first field containing it. -/
theorem classifyLoop_eq_firstFieldMatch (q : Str) (fs : List Str) :
    classifyLoop q fs none = firstFieldMatch q fs := by
  induction fs with
  | nil => simp [classifyLoop, firstFieldMatch]
  | cons f rest ih =>
    by_cases hf : f = []
    · subst hf
      rw [classifyLoop, if_pos rfl, ih, firstFieldMatch_cons_nil]
    · by_cases hq : goToLower f = q
      · rw [classifyLoop, if_neg hf, if_pos hq]
        unfold firstFieldMatch
        rw [if_pos ⟨f, List.mem_cons_self f rest, hf, hq⟩]
      · rw [classifyLoop, if_neg hf, if_neg hq, if_pos rfl]
        have hcond : (∃ g ∈ f :: rest, g ≠ [] ∧ goToLower g = q) ↔
            (∃ g ∈ rest, g ≠ [] ∧ goToLower g = q) := by
          constructor
          · rintro ⟨g, hg, hgp⟩
            rcases List.mem_cons.mp hg with rfl | hg2
            · exact absurd hgp.2 hq
            · exact ⟨g, hg2, hgp⟩
          · rintro ⟨g, hg, hgp⟩
            exact ⟨g, List.mem_cons_of_mem _ hg, hgp⟩
        by_cases hcont : goContains (goToLower f) q = true
        · -- the first field matches: its class sticks unless a later
          -- field is exact
          have hchain :
              (if goStartsWith (goToLower f) q = true then some Tier.starts
               else if goEndsWith (goToLower f) q = true then some Tier.ends
               else if goContains (goToLower f) q = true then some Tier.fuzzy
               else none) =
              some (if goStartsWith (goToLower f) q = true then Tier.starts
                    else if goEndsWith (goToLower f) q = true then Tier.ends
                    else Tier.fuzzy) := by
            by_cases h1 : goStartsWith (goToLower f) q = true
            · simp [h1]
            · by_cases h2 : goEndsWith (goToLower f) q = true
              · simp [h1, h2]
              · simp [h1, h2, hcont]
          rw [hchain, classifyLoop_some]
          unfold firstFieldMatch
          have hpred : (!f.isEmpty && goContains (goToLower f) q) = true := by
            simp [List.isEmpty_iff, hf, hcont]
          rw [List.filter_cons, if_pos hpred]
          simp only [hcond]
          split_ifs <;> rfl
        · -- the first field does not match at all
          have hcont' : ¬(q <:+: goToLower f) := by
            simpa [goContains] using hcont
          have h1 : goStartsWith (goToLower f) q = false := by
            rw [goStartsWith, decide_eq_false_iff_not]
            exact fun h => hcont' h.isInfix
          have h2 : goEndsWith (goToLower f) q = false := by
            rw [goEndsWith, decide_eq_false_iff_not]
            exact fun h => hcont' h.isInfix
          have hc0 : goContains (goToLower f) q = false :=
            eq_false_of_ne_true hcont
          rw [h1, h2, hc0]
          simp only [Bool.false_eq_true, if_false]
          rw [ih]
          unfold firstFieldMatch
          have hpred : (!f.isEmpty && goContains (goToLower f) q) = false := by
            simp [hc0]
          rw [List.filter_cons, hpred]
          simp only [hcond, Bool.false_eq_true, if_false]

/-! ## The search output as stable tier filters -/

theorem foldl_searchAccStep (q : Str) (ts : List Task) (e p s f : List Task) :
    ts.foldl (searchAccStep q) (e, p, s, f) =
      (e ++ ts.filter (fun t => classifyTask q t == some Tier.exact),
       p ++ ts.filter (fun t => classifyTask q t == some Tier.starts),
       s ++ ts.filter (fun t => classifyTask q t == some Tier.ends),
       f ++ ts.filter (fun t => classifyTask q t == some Tier.fuzzy)) := by
  induction ts generalizing e p s f with
  | nil => simp
  | cons t ts ih =>
    rw [List.foldl_cons]
    cases h : classifyTask q t with
    | none =>
      have hstep : searchAccStep q (e, p, s, f) t = (e, p, s, f) := by
        simp [searchAccStep, h]
      rw [hstep, ih]
      simp [List.filter_cons, h]
    | some tier =>
      cases tier with
      | exact =>
        have hstep : searchAccStep q (e, p, s, f) t = (e ++ [t], p, s, f) := by
          simp [searchAccStep, h]
        rw [hstep, ih]
        simp [List.filter_cons, h]
      | starts =>
        have hstep : searchAccStep q (e, p, s, f) t = (e, p ++ [t], s, f) := by
          simp [searchAccStep, h]
        rw [hstep, ih]
        simp [List.filter_cons, h]
      | ends =>
        have hstep : searchAccStep q (e, p, s, f) t = (e, p, s ++ [t], f) := by
          simp [searchAccStep, h]
        rw [hstep, ih]
        simp [List.filter_cons, h]
      | fuzzy =>
        have hstep : searchAccStep q (e, p, s, f) t = (e, p, s, f ++ [t]) := by
          simp [searchAccStep, h]
        rw [hstep, ih]
        simp [List.filter_cons, h]

/-- The search output is the four tier filters concatenated in priority
order; each filter keeps the original relative order of the input. -/
theorem searchInMemoryTasks_eq_tiers (query : Str) (tasks : List Task) :
    searchInMemoryTasks query tasks =
      if goToLower (goTrimSpace query) = [] then tasks
      else
        tasks.filter
            (fun t => classifyTask (goToLower (goTrimSpace query)) t == some Tier.exact)
          ++ tasks.filter
            (fun t => classifyTask (goToLower (goTrimSpace query)) t == some Tier.starts)
          ++ tasks.filter
            (fun t => classifyTask (goToLower (goTrimSpace query)) t == some Tier.ends)
          ++ tasks.filter
            (fun t => classifyTask (goToLower (goTrimSpace query)) t == some Tier.fuzzy) := by
  unfold searchInMemoryTasks
  by_cases hq : goToLower (goTrimSpace query) = []
  · simp [hq]
  · simp only [hq, if_false, foldl_searchAccStep, List.nil_append]

/-- A task is classified (in some tier) exactly when one of its non-empty
fields contains the normalised query. -/
theorem classifyTask_ne_none_iff (q : Str) (t : Task) :
    classifyTask q t ≠ none ↔
      ∃ f ∈ searchableFields t, f ≠ [] ∧ q <:+: goToLower f := by
  rw [classifyTask, classifyLoop_eq_firstFieldMatch]
  unfold firstFieldMatch
  by_cases hex : ∃ f ∈ searchableFields t, f ≠ [] ∧ goToLower f = q
  · rw [if_pos hex]
    simp only [ne_eq, reduceCtorEq, not_false_iff, true_iff]
    obtain ⟨f, hf, hne, heq⟩ := hex
    exact ⟨f, hf, hne, by rw [heq]⟩
  · rw [if_neg hex]
    cases hfil : (searchableFields t).filter
        (fun f => !f.isEmpty && goContains (goToLower f) q) with
    | nil =>
      simp only [ne_eq, not_true_eq_false, false_iff, not_exists]
      intro f hf
      obtain ⟨hmem, hne, hinf⟩ := hf
      have hnp := List.filter_eq_nil_iff.mp hfil f hmem
      apply hnp
      simp [List.isEmpty_iff, hne, goContains, hinf]
    | cons f rest =>
      refine iff_of_true ?_ ?_
      · show (if goStartsWith (goToLower f) q = true then some Tier.starts
              else if goEndsWith (goToLower f) q = true then some Tier.ends
              else some Tier.fuzzy) ≠ none
        split_ifs <;> simp
      · have hfmem : f ∈ (searchableFields t).filter
            (fun g => !g.isEmpty && goContains (goToLower g) q) := by
          rw [hfil]
          exact List.mem_cons_self f rest
        have hsplit := List.mem_filter.mp hfmem
        have hpred := hsplit.2
        rw [Bool.and_eq_true] at hpred
        refine ⟨f, hsplit.1, fun hnil => ?_, ?_⟩
        · rw [hnil] at hpred
          simp at hpred
        · have hcont := hpred.2
          rwa [goContains, decide_eq_true_iff] at hcont

/-- Membership in the search output, for a non-empty normalised query. -/
theorem mem_searchInMemoryTasks (query : Str) (tasks : List Task) (t : Task)
    (h : goToLower (goTrimSpace query) ≠ []) :
    t ∈ searchInMemoryTasks query tasks ↔
      t ∈ tasks ∧ classifyTask (goToLower (goTrimSpace query)) t ≠ none := by
  rw [searchInMemoryTasks_eq_tiers, if_neg h]
  simp only [List.mem_append, List.mem_filter, beq_iff_eq]
  constructor
  · rintro ((((⟨ht, hc⟩ | ⟨ht, hc⟩) | ⟨ht, hc⟩) | ⟨ht, hc⟩)) <;>
      exact ⟨ht, by simp [hc]⟩
  · rintro ⟨ht, hc⟩
    cases hcl : classifyTask (goToLower (goTrimSpace query)) t with
    | none => exact absurd hcl hc
    | some tier =>
      cases tier with
      | exact => exact Or.inl (Or.inl (Or.inl ⟨ht, rfl⟩))
      | starts => exact Or.inl (Or.inl (Or.inr ⟨ht, rfl⟩))
      | ends => exact Or.inl (Or.inr ⟨ht, rfl⟩)
      | fuzzy => exact Or.inr ⟨ht, rfl⟩

/-- A task whose FIRST matching field (the title) only ends with the
query "ab", while a LATER field (the note) starts with it. -/
def taskSuffixFirst : Task :=
  { id := 1, title := str "xab", project := [], jiraID := [], note := str "abq",
    tags := [], priority := 0, status := str "todo" }

/-- A task whose title starts with the query "ab". -/
def taskCleanStart : Task :=
  { id := 2, title := str "abz", project := [], jiraID := [], note := [],
    tags := [], priority := 0, status := str "todo" }

/-- C1 counterexample: the code classifies `taskSuffixFirst` by its first
matching field (title, a suffix match) and ranks it after
`taskCleanStart`; the spec's "highest-priority tier achieved by any
field" would classify it by its note (a prefix match) and keep it first.
The two orderings differ on this concrete input. -/
theorem c1_counterexample :
    searchInMemoryTasks (str "ab") [taskSuffixFirst, taskCleanStart] =
        [taskCleanStart, taskSuffixFirst] ∧
      specRankedSearch (str "ab") [taskSuffixFirst, taskCleanStart] =
        [taskSuffixFirst, taskCleanStart] ∧
      classifyTask (str "ab") taskSuffixFirst = some Tier.ends ∧
      specBestTier (str "ab") taskSuffixFirst = some Tier.starts := by
  decide

/-- C1 (amended): for every non-empty normalised query the ranked search
places each record at most once (its multiplicity never grows), under the
tier given by the FIRST field that matches — exact equality of ANY field
(in order) takes precedence, and within the first matching field prefix
beats suffix beats contains; the spec's "highest tier achieved by any
field" holds only for the exact tier. -/
theorem c1_first_matching_field (query : Str) (tasks : List Task)
    (hq : goToLower (goTrimSpace query) ≠ []) :
    (∀ t : Task, (searchInMemoryTasks query tasks).count t ≤ tasks.count t) ∧
    searchInMemoryTasks query tasks =
      tasks.filter (fun t =>
          firstFieldMatch (goToLower (goTrimSpace query)) (searchableFields t)
            == some Tier.exact)
        ++ tasks.filter (fun t =>
          firstFieldMatch (goToLower (goTrimSpace query)) (searchableFields t)
            == some Tier.starts)
        ++ tasks.filter (fun t =>
          firstFieldMatch (goToLower (goTrimSpace query)) (searchableFields t)
            == some Tier.ends)
        ++ tasks.filter (fun t =>
          firstFieldMatch (goToLower (goTrimSpace query)) (searchableFields t)
            == some Tier.fuzzy) := by
  have heq : ∀ t : Task,
      classifyTask (goToLower (goTrimSpace query)) t =
        firstFieldMatch (goToLower (goTrimSpace query)) (searchableFields t) :=
    fun t => classifyLoop_eq_firstFieldMatch _ _
  constructor
  · intro t
    rw [searchInMemoryTasks_eq_tiers, if_neg hq]
    simp only [List.count_append]
    have hzero : ∀ tier : Tier,
        classifyTask (goToLower (goTrimSpace query)) t ≠ some tier →
        (tasks.filter (fun u =>
            classifyTask (goToLower (goTrimSpace query)) u == some tier)).count t
          = 0 := by
      intro tier htier
      rw [List.count_eq_zero]
      intro hmem
      have hp := (List.mem_filter.mp hmem).2
      rw [beq_iff_eq] at hp
      exact htier hp
    have hle : ∀ tier : Tier,
        (tasks.filter (fun u =>
            classifyTask (goToLower (goTrimSpace query)) u == some tier)).count t
          ≤ tasks.count t :=
      fun tier => (List.filter_sublist tasks).count_le t
    cases hcl : classifyTask (goToLower (goTrimSpace query)) t with
    | none =>
      rw [hzero Tier.exact (by simp [hcl]), hzero Tier.starts (by simp [hcl]),
        hzero Tier.ends (by simp [hcl]), hzero Tier.fuzzy (by simp [hcl])]
      simp
    | some tier =>
      cases tier with
      | exact =>
        rw [hzero Tier.starts (by simp [hcl]), hzero Tier.ends (by simp [hcl]),
          hzero Tier.fuzzy (by simp [hcl])]
        simpa using hle Tier.exact
      | starts =>
        rw [hzero Tier.exact (by simp [hcl]), hzero Tier.ends (by simp [hcl]),
          hzero Tier.fuzzy (by simp [hcl])]
        simpa using hle Tier.starts
      | ends =>
        rw [hzero Tier.exact (by simp [hcl]), hzero Tier.starts (by simp [hcl]),
          hzero Tier.fuzzy (by simp [hcl])]
        simpa using hle Tier.ends
      | fuzzy =>
        rw [hzero Tier.exact (by simp [hcl]), hzero Tier.starts (by simp [hcl]),
          hzero Tier.ends (by simp [hcl])]
        simpa using hle Tier.fuzzy
  · rw [searchInMemoryTasks_eq_tiers, if_neg hq]
    simp only [heq]

/-- Witness for C1 (amended) at the counterexample input. -/
theorem c1_first_matching_field_witness :
    goToLower (goTrimSpace (str "ab")) ≠ [] ∧
    (∀ t : Task,
      (searchInMemoryTasks (str "ab") [taskSuffixFirst, taskCleanStart]).count t
        ≤ [taskSuffixFirst, taskCleanStart].count t) :=
  ⟨by decide,
   (c1_first_matching_field (str "ab") [taskSuffixFirst, taskCleanStart]
      (by decide)).1⟩

/-- C2: for every task set and query, the output concatenates the four
tiers in the order exact, prefix, suffix, fuzzy (so tier rank is
non-decreasing through the output), each tier keeping the original
relative order (`List.filter` is stable); an empty (trimmed) query is the
identity transform. -/
theorem c2_tiers_ordered_and_stable (query : Str) (tasks : List Task) :
    searchInMemoryTasks query tasks =
      if goToLower (goTrimSpace query) = [] then tasks
      else
        tasks.filter (fun t =>
            classifyTask (goToLower (goTrimSpace query)) t == some Tier.exact)
          ++ tasks.filter (fun t =>
            classifyTask (goToLower (goTrimSpace query)) t == some Tier.starts)
          ++ tasks.filter (fun t =>
            classifyTask (goToLower (goTrimSpace query)) t == some Tier.ends)
          ++ tasks.filter (fun t =>
            classifyTask (goToLower (goTrimSpace query)) t == some Tier.fuzzy) :=
  searchInMemoryTasks_eq_tiers query tasks

/-- Shortening the query by one character can only grow the result set. -/
theorem search_dropLast_superset (q : Str) (T : List Task) (t : Task)
    (ht : t ∈ searchInMemoryTasks q T) :
    t ∈ searchInMemoryTasks q.dropLast T := by
  by_cases hnq : goToLower (goTrimSpace q) = []
  · rw [searchInMemoryTasks_eq_tiers, if_pos hnq] at ht
    have hinf := normalised_infix_of_dropLast q
    rw [hnq, List.infix_nil] at hinf
    rw [searchInMemoryTasks_eq_tiers, if_pos hinf]
    exact ht
  · rw [mem_searchInMemoryTasks q T t hnq] at ht
    obtain ⟨htT, hcl⟩ := ht
    by_cases hnq2 : goToLower (goTrimSpace q.dropLast) = []
    · rw [searchInMemoryTasks_eq_tiers, if_pos hnq2]
      exact htT
    · rw [mem_searchInMemoryTasks q.dropLast T t hnq2]
      refine ⟨htT, ?_⟩
      rw [classifyTask_ne_none_iff] at hcl ⊢
      obtain ⟨f, hfm, hfne, hinf⟩ := hcl
      exact ⟨f, hfm, hfne, (normalised_infix_of_dropLast q).trans hinf⟩

/-- What one live-search recomputation does to the state: replace the
displayed tasks by the ranked filter of the ORIGINAL set (all of it for an
empty query) and reset selection and page to 0; the final clamp of
`applyLiveSearch` is dead code because the selection was just zeroed. -/
theorem applyLiveSearch_eq (m : ListModel) :
    applyLiveSearch m =
      { m with
        tasks := if m.searchQuery = [] then m.originalTasks
                 else searchInMemoryTasks m.searchQuery m.originalTasks,
        selectedTask := 0, currentPage := 0 } := by
  rw [applyLiveSearch]
  dsimp only
  split_ifs with h1 h2 h3
  · exact absurd h2 (by omega)
  · rfl
  · exact absurd h3 (by omega)
  · rfl

/-- C3: on a non-empty live-search query, Backspace shortens the query by
one character, recomputes the ranked filter over the ORIGINAL unfiltered
set, and the new result list is a superset (both by record and by id) of
the result list for the longer query. -/
theorem c3_backspace_broadens (m : ListModel) (hq : m.searchQuery ≠ []) :
    (handleSearchKeys m SearchKey.backspace).searchQuery =
        m.searchQuery.dropLast ∧
    (handleSearchKeys m SearchKey.backspace).originalTasks = m.originalTasks ∧
    (handleSearchKeys m SearchKey.backspace).tasks =
      (if m.searchQuery.dropLast = [] then m.originalTasks
       else searchInMemoryTasks m.searchQuery.dropLast m.originalTasks) ∧
    (∀ t ∈ searchInMemoryTasks m.searchQuery m.originalTasks,
      t ∈ (handleSearchKeys m SearchKey.backspace).tasks) ∧
    (∀ i ∈ (searchInMemoryTasks m.searchQuery m.originalTasks).map Task.id,
      i ∈ (handleSearchKeys m SearchKey.backspace).tasks.map Task.id) := by
  have hlen : m.searchQuery.length > 0 := List.length_pos.mpr hq
  have hstate : handleSearchKeys m SearchKey.backspace =
      applyLiveSearch { m with searchQuery := m.searchQuery.dropLast } := by
    rw [handleSearchKeys, if_pos hlen]
  have htasks : (handleSearchKeys m SearchKey.backspace).tasks =
      (if m.searchQuery.dropLast = [] then m.originalTasks
       else searchInMemoryTasks m.searchQuery.dropLast m.originalTasks) := by
    rw [hstate, applyLiveSearch_eq]
  have hsup : ∀ t ∈ searchInMemoryTasks m.searchQuery m.originalTasks,
      t ∈ (handleSearchKeys m SearchKey.backspace).tasks := by
    intro t ht
    rw [htasks]
    by_cases hdrop : m.searchQuery.dropLast = []
    · rw [if_pos hdrop]
      have hsub := search_dropLast_superset m.searchQuery m.originalTasks t ht
      rw [hdrop] at hsub
      rw [searchInMemoryTasks_eq_tiers, if_pos (by rfl : goToLower (goTrimSpace ([] : Str)) = [])] at hsub
      exact hsub
    · rw [if_neg hdrop]
      exact search_dropLast_superset m.searchQuery m.originalTasks t ht
  refine ⟨?_, ?_, htasks, hsup, ?_⟩
  · rw [hstate, applyLiveSearch_eq]
  · rw [hstate, applyLiveSearch_eq]
  · intro i hi
    obtain ⟨t, ht, rfl⟩ := List.mem_map.mp hi
    exact List.mem_map_of_mem Task.id (hsup t ht)

/-- A concrete mid-search model used to witness C3. -/
def mC3 : ListModel :=
  { NewListModel [taskSuffixFirst, taskCleanStart] with
    searchQuery := str "ab", searchActive := true, focus := Focus.search,
    tasks := searchInMemoryTasks (str "ab") [taskSuffixFirst, taskCleanStart] }

/-- Witness for C3 at a concrete mid-search state. -/
theorem c3_backspace_broadens_witness :
    mC3.searchQuery ≠ [] ∧
    (∀ t ∈ searchInMemoryTasks mC3.searchQuery mC3.originalTasks,
      t ∈ (handleSearchKeys mC3 SearchKey.backspace).tasks) :=
  ⟨by decide, (c3_backspace_broadens mC3 (by decide)).2.2.2.1⟩

/-- C4 counterexample: on the freshly constructed model (page size still
zero, no resize processed yet) with a non-empty task list,
MoveSelection(+1) does not produce any new in-range state — it reaches
the division by zero in its `maxPages` computation (a Go run-time
panic), so the claim's "always" fails. -/
theorem c4_counterexample :
    (NewListModel [taskSuffixFirst, taskCleanStart]).tasks ≠ [] ∧
    (NewListModel [taskSuffixFirst, taskCleanStart]).selectedTask <
      (NewListModel [taskSuffixFirst, taskCleanStart]).tasks.length ∧
    moveSelectionDown (NewListModel [taskSuffixFirst, taskCleanStart]) =
      none := by
  decide

/-- C4 (amended): on a non-empty filtered list, in a state with a valid
selection AND an initialised page size (tasksPerPage ≥ 1, i.e. after the
first resize), MoveSelection(±1) keeps the selection inside
[0, len(filtered)), is a no-op (whole state unchanged) at either
boundary, and otherwise moves the index by exactly one. -/
theorem c4_move_selection_clamped (m : ListModel)
    (hne : m.tasks ≠ []) (hsel : m.selectedTask < m.tasks.length)
    (htpp : 1 ≤ m.tasksPerPage) :
    ((moveSelectionUp m).selectedTask < m.tasks.length ∧
      (moveSelectionUp m).tasks = m.tasks ∧
      (m.selectedTask = 0 → moveSelectionUp m = m) ∧
      (0 < m.selectedTask →
        (moveSelectionUp m).selectedTask = m.selectedTask - 1)) ∧
    (∃ m2, moveSelectionDown m = some m2 ∧
      m2.selectedTask < m.tasks.length ∧ m2.tasks = m.tasks ∧
      (m.selectedTask = m.tasks.length - 1 → m2 = m) ∧
      (m.selectedTask < m.tasks.length - 1 →
        m2.selectedTask = m.selectedTask + 1)) := by
  have hlen : 0 < m.tasks.length := List.length_pos.mpr hne
  constructor
  · rw [moveSelectionUp]
    dsimp only
    split_ifs with h1 h2
    · exact ⟨show m.selectedTask - 1 < m.tasks.length by omega, rfl,
        fun h0 => absurd h0 (by omega), fun _ => rfl⟩
    · exact ⟨show m.selectedTask - 1 < m.tasks.length by omega, rfl,
        fun h0 => absurd h0 (by omega), fun _ => rfl⟩
    · exact ⟨hsel, rfl, fun _ => rfl, fun hpos => absurd hpos h1⟩
  · rw [moveSelectionDown]
    dsimp only
    split_ifs with h1 h2 h3
    · exact absurd h2 (by omega)
    · exact ⟨_, rfl, show m.selectedTask + 1 < m.tasks.length by omega, rfl,
        fun hb => absurd hb (by omega), fun _ => rfl⟩
    · exact ⟨_, rfl, show m.selectedTask + 1 < m.tasks.length by omega, rfl,
        fun hb => absurd hb (by omega), fun _ => rfl⟩
    · exact ⟨m, rfl, hsel, rfl, fun _ => rfl, fun hlt => absurd hlt h1⟩

/-- A freshly loaded two-task model after a first resize (height 15 gives
the minimum page size 3). -/
def mC4 : ListModel :=
  updateWindowSize (NewListModel [taskSuffixFirst, taskCleanStart]) 80 15

/-- Witness for C4 (amended) at a concrete resized model. -/
theorem c4_move_selection_clamped_witness :
    mC4.tasks ≠ [] ∧ mC4.selectedTask < mC4.tasks.length ∧
      1 ≤ mC4.tasksPerPage ∧
    (∃ m2, moveSelectionDown mC4 = some m2 ∧
      m2.selectedTask < mC4.tasks.length ∧ m2.tasks = mC4.tasks ∧
      (mC4.selectedTask = mC4.tasks.length - 1 → m2 = mC4) ∧
      (mC4.selectedTask < mC4.tasks.length - 1 →
        m2.selectedTask = mC4.selectedTask + 1)) :=
  ⟨by decide, by decide, by decide,
   (c4_move_selection_clamped mC4 (by decide) (by decide) (by decide)).2⟩

/-! ## C5: the visible-page invariant -/

/-- The selection/pagination well-formedness the List Engine is supposed
to maintain: an initialised page size; a zeroed cursor when the view is
empty; and otherwise a selection inside the visible page
[page*pageSize, min((page+1)*pageSize, len)-1]. -/
def SelInv (m : ListModel) : Prop :=
  1 ≤ m.tasksPerPage ∧
  (m.tasks = [] → m.selectedTask = 0 ∧ m.currentPage = 0) ∧
  (m.tasks ≠ [] →
    m.currentPage * m.tasksPerPage ≤ m.selectedTask ∧
    m.selectedTask + 1 ≤
      min ((m.currentPage + 1) * m.tasksPerPage) m.tasks.length)

/-- A state whose cursor was just reset to (0, 0) satisfies the
invariant. -/
theorem selInv_reset_state {m2 : ListModel} (htpp : 1 ≤ m2.tasksPerPage)
    (hsel : m2.selectedTask = 0) (hpage : m2.currentPage = 0) : SelInv m2 := by
  refine ⟨htpp, fun _ => ⟨hsel, hpage⟩, fun hne => ?_⟩
  have hlen : 0 < m2.tasks.length := List.length_pos.mpr hne
  rw [hsel, hpage]
  have e : (0 + 1) * m2.tasksPerPage = m2.tasksPerPage := by ring
  constructor
  · omega
  · omega

theorem selInv_moveSelectionUp {m : ListModel} (h : SelInv m) :
    SelInv (moveSelectionUp m) := by
  obtain ⟨htpp, hemp, hfull⟩ := h
  by_cases h1 : m.selectedTask > 0
  case neg =>
    rw [moveSelectionUp]
    dsimp only
    rw [if_neg h1]
    exact ⟨htpp, hemp, hfull⟩
  case pos =>
    have hne : m.tasks ≠ [] := fun he => absurd (hemp he).1 (by omega)
    obtain ⟨hlow, hhigh⟩ := hfull hne
    rw [moveSelectionUp]
    dsimp only
    rw [if_pos h1]
    split_ifs with h2
    · have hp1 : 0 < m.currentPage := h2.2
      have hmul : m.currentPage * m.tasksPerPage =
          (m.currentPage - 1) * m.tasksPerPage + m.tasksPerPage := by
        have hpe : m.currentPage = (m.currentPage - 1) + 1 := by omega
        conv_lhs => rw [hpe]
        ring
      refine ⟨htpp, fun he => absurd he hne, fun _ => ⟨?_, ?_⟩⟩
      · show (m.currentPage - 1) * m.tasksPerPage ≤ m.selectedTask - 1
        omega
      · show (m.selectedTask - 1) + 1 ≤
          min ((m.currentPage - 1 + 1) * m.tasksPerPage) m.tasks.length
        have hpe2 : m.currentPage - 1 + 1 = m.currentPage := by omega
        rw [hpe2]
        omega
    · refine ⟨htpp, fun he => absurd he hne, fun _ => ⟨?_, ?_⟩⟩
      · show m.currentPage * m.tasksPerPage ≤ m.selectedTask - 1
        rcases Nat.eq_zero_or_pos m.currentPage with hp0 | hp1
        · rw [hp0]
          omega
        · have hA : ¬(m.selectedTask - 1 < m.currentPage * m.tasksPerPage) :=
            fun a => h2 ⟨a, hp1⟩
          omega
      · show (m.selectedTask - 1) + 1 ≤
          min ((m.currentPage + 1) * m.tasksPerPage) m.tasks.length
        omega

theorem selInv_moveSelectionDown {m m2 : ListModel} (h : SelInv m)
    (hstep : moveSelectionDown m = some m2) : SelInv m2 := by
  obtain ⟨htpp, hemp, hfull⟩ := h
  rw [moveSelectionDown] at hstep
  dsimp only at hstep
  by_cases h1 : m.selectedTask < m.tasks.length - 1
  case neg =>
    rw [if_neg h1] at hstep
    injection hstep with heq
    subst heq
    exact ⟨htpp, hemp, hfull⟩
  case pos =>
    rw [if_pos h1, if_neg (by omega : ¬m.tasksPerPage = 0)] at hstep
    have hne : m.tasks ≠ [] := by
      intro he
      rw [he] at h1
      simp at h1
    obtain ⟨hlow, hhigh⟩ := hfull hne
    have hm1 : (m.currentPage + 1) * m.tasksPerPage =
        m.currentPage * m.tasksPerPage + m.tasksPerPage := by ring
    have hm2 : (m.currentPage + 1 + 1) * m.tasksPerPage =
        (m.currentPage + 1) * m.tasksPerPage + m.tasksPerPage := by ring
    split_ifs at hstep with h2
    · obtain ⟨h2a, h2b⟩ := h2
      injection hstep with heq
      subst heq
      refine ⟨htpp, fun he => absurd he hne, fun _ => ⟨?_, ?_⟩⟩
      · show (m.currentPage + 1) * m.tasksPerPage ≤ m.selectedTask + 1
        omega
      · show m.selectedTask + 1 + 1 ≤
          min ((m.currentPage + 1 + 1) * m.tasksPerPage) m.tasks.length
        omega
    · injection hstep with heq
      subst heq
      refine ⟨htpp, fun he => absurd he hne, fun _ => ⟨?_, ?_⟩⟩
      · show m.currentPage * m.tasksPerPage ≤ m.selectedTask + 1
        omega
      · show m.selectedTask + 1 + 1 ≤
          min ((m.currentPage + 1) * m.tasksPerPage) m.tasks.length
        by_cases hcpe : m.selectedTask + 1 >
            min ((m.currentPage + 1) * m.tasksPerPage - 1) (m.tasks.length - 1)
        · have hb : ¬(m.currentPage <
              (m.tasks.length + m.tasksPerPage - 1) / m.tasksPerPage - 1) :=
            fun hb => h2 ⟨hcpe, hb⟩
          have hdiv : m.currentPage + 2 ≤
              (m.tasks.length + m.tasksPerPage - 1) / m.tasksPerPage := by
            rw [Nat.le_div_iff_mul_le (by omega : 0 < m.tasksPerPage)]
            have hm2b : (m.currentPage + 2) * m.tasksPerPage =
                (m.currentPage + 1) * m.tasksPerPage + m.tasksPerPage := by ring
            omega
          omega
        · omega

theorem selInv_prevPage {m : ListModel} (h : SelInv m) : SelInv (prevPage m) := by
  obtain ⟨htpp, hemp, hfull⟩ := h
  by_cases h1 : m.currentPage > 0
  case neg =>
    rw [prevPage]
    dsimp only
    rw [if_neg h1]
    exact ⟨htpp, hemp, hfull⟩
  case pos =>
    have hne : m.tasks ≠ [] := fun he => absurd (hemp he).2 (by omega)
    obtain ⟨hlow, hhigh⟩ := hfull hne
    have hlen : 0 < m.tasks.length := List.length_pos.mpr hne
    have e1 : (m.currentPage - 1 + 1) * m.tasksPerPage =
        m.currentPage * m.tasksPerPage := by
      have hpe : m.currentPage - 1 + 1 = m.currentPage := by omega
      rw [hpe]
    have e2 : (m.currentPage - 1) * m.tasksPerPage + m.tasksPerPage =
        m.currentPage * m.tasksPerPage := by
      have hpe : m.currentPage = (m.currentPage - 1) + 1 := by omega
      conv_rhs => rw [hpe]
      ring
    have e3 : m.tasksPerPage ≤ m.currentPage * m.tasksPerPage :=
      Nat.le_mul_of_pos_left _ h1
    rw [prevPage]
    dsimp only
    rw [if_pos h1]
    split_ifs with h2 h3 h4
    · exact ⟨htpp, fun he => absurd he hne, fun _ =>
        ⟨show (m.currentPage - 1) * m.tasksPerPage ≤
            (m.currentPage - 1) * m.tasksPerPage by omega,
         show (m.currentPage - 1) * m.tasksPerPage + 1 ≤
            min ((m.currentPage - 1 + 1) * m.tasksPerPage) m.tasks.length
          by omega⟩⟩
    · exact ⟨htpp, fun he => absurd he hne, fun _ =>
        ⟨show (m.currentPage - 1) * m.tasksPerPage ≤
            min ((m.currentPage - 1 + 1) * m.tasksPerPage - 1)
              (m.tasks.length - 1) by omega,
         show min ((m.currentPage - 1 + 1) * m.tasksPerPage - 1)
              (m.tasks.length - 1) + 1 ≤
            min ((m.currentPage - 1 + 1) * m.tasksPerPage) m.tasks.length
          by omega⟩⟩
    · exact ⟨htpp, fun he => absurd he hne, fun _ =>
        ⟨show (m.currentPage - 1) * m.tasksPerPage ≤
            (m.currentPage - 1) * m.tasksPerPage by omega,
         show (m.currentPage - 1) * m.tasksPerPage + 1 ≤
            min ((m.currentPage - 1 + 1) * m.tasksPerPage) m.tasks.length
          by omega⟩⟩
    · exact ⟨htpp, fun he => absurd he hne, fun _ =>
        ⟨show (m.currentPage - 1) * m.tasksPerPage ≤ m.selectedTask by omega,
         show m.selectedTask + 1 ≤
            min ((m.currentPage - 1 + 1) * m.tasksPerPage) m.tasks.length
          by omega⟩⟩

theorem selInv_nextPage {m m2 : ListModel} (h : SelInv m)
    (hstep : nextPage m = some m2) : SelInv m2 := by
  obtain ⟨htpp, hemp, hfull⟩ := h
  rw [nextPage] at hstep
  dsimp only at hstep
  rw [if_neg (by omega : ¬m.tasksPerPage = 0)] at hstep
  by_cases h1 : m.currentPage <
      (m.tasks.length + m.tasksPerPage - 1) / m.tasksPerPage - 1
  case neg =>
    rw [if_neg h1] at hstep
    injection hstep with heq
    subst heq
    exact ⟨htpp, hemp, hfull⟩
  case pos =>
    rw [if_pos h1] at hstep
    have hdiv : (m.currentPage + 2) * m.tasksPerPage ≤
        m.tasks.length + m.tasksPerPage - 1 :=
      (Nat.le_div_iff_mul_le (by omega : 0 < m.tasksPerPage)).mp (by omega)
    have e1 : (m.currentPage + 1) * m.tasksPerPage + m.tasksPerPage =
        (m.currentPage + 2) * m.tasksPerPage := by ring
    have e2 : (m.currentPage + 1 + 1) * m.tasksPerPage =
        (m.currentPage + 2) * m.tasksPerPage := by ring
    have hlenb : (m.currentPage + 1) * m.tasksPerPage + 1 ≤ m.tasks.length := by
      omega
    have hne : m.tasks ≠ [] := by
      intro he
      rw [he] at hlenb
      simp at hlenb
    split_ifs at hstep with h2 h3 h4
    · injection hstep with heq
      subst heq
      refine ⟨htpp, fun he => absurd he hne, fun _ => ⟨?_, ?_⟩⟩
      · show (m.currentPage + 1) * m.tasksPerPage ≤
          min ((m.currentPage + 1 + 1) * m.tasksPerPage - 1)
            (m.tasks.length - 1)
        omega
      · show min ((m.currentPage + 1 + 1) * m.tasksPerPage - 1)
            (m.tasks.length - 1) + 1 ≤
          min ((m.currentPage + 1 + 1) * m.tasksPerPage) m.tasks.length
        omega
    · injection hstep with heq
      subst heq
      refine ⟨htpp, fun he => absurd he hne, fun _ => ⟨?_, ?_⟩⟩
      · show (m.currentPage + 1) * m.tasksPerPage ≤
          (m.currentPage + 1) * m.tasksPerPage
        omega
      · show (m.currentPage + 1) * m.tasksPerPage + 1 ≤
          min ((m.currentPage + 1 + 1) * m.tasksPerPage) m.tasks.length
        omega
    · injection hstep with heq
      subst heq
      refine ⟨htpp, fun he => absurd he hne, fun _ => ⟨?_, ?_⟩⟩
      · show (m.currentPage + 1) * m.tasksPerPage ≤
          min ((m.currentPage + 1 + 1) * m.tasksPerPage - 1)
            (m.tasks.length - 1)
        omega
      · show min ((m.currentPage + 1 + 1) * m.tasksPerPage - 1)
            (m.tasks.length - 1) + 1 ≤
          min ((m.currentPage + 1 + 1) * m.tasksPerPage) m.tasks.length
        omega
    · injection hstep with heq
      subst heq
      dsimp only at h4
      refine ⟨htpp, fun he => absurd he hne, fun _ => ⟨?_, ?_⟩⟩
      · show (m.currentPage + 1) * m.tasksPerPage ≤ m.selectedTask
        omega
      · show m.selectedTask + 1 ≤
          min ((m.currentPage + 1 + 1) * m.tasksPerPage) m.tasks.length
        omega

theorem selInv_handleSearchKeys {m : ListModel} (h : SelInv m)
    (k : SearchKey) : SelInv (handleSearchKeys m k) := by
  obtain ⟨htpp, hemp, hfull⟩ := h
  cases k with
  | esc =>
    rw [handleSearchKeys]
    exact selInv_reset_state htpp rfl rfl
  | enter =>
    rw [handleSearchKeys]
    exact ⟨htpp, hemp, hfull⟩
  | backspace =>
    rw [handleSearchKeys]
    split_ifs with h1
    · rw [applyLiveSearch_eq]
      exact selInv_reset_state htpp rfl rfl
    · exact ⟨htpp, hemp, hfull⟩
  | char c =>
    rw [handleSearchKeys]
    split_ifs with h1
    · rw [applyLiveSearch_eq]
      exact selInv_reset_state htpp rfl rfl
    · exact ⟨htpp, hemp, hfull⟩
  | other =>
    rw [handleSearchKeys]
    exact ⟨htpp, hemp, hfull⟩

theorem selInv_refreshTasks {m : ListModel} (h : SelInv m)
    (fetched : List Task) (hgrow : m.tasks.length ≤ fetched.length) :
    SelInv (refreshTasks m fetched) := by
  obtain ⟨htpp, hemp, hfull⟩ := h
  rw [refreshTasks]
  dsimp only
  split_ifs with h1 h2
  · exfalso
    rcases eq_or_ne m.tasks [] with he | hne
    · have := (hemp he).1
      omega
    · have := (hfull hne).2
      have hlenOld : 0 < m.tasks.length := List.length_pos.mpr hne
      omega
  · have hoe : m.tasks = [] := List.length_eq_zero.mp (by omega)
    obtain ⟨hs0, hp0⟩ := hemp hoe
    have hfe : fetched = [] := List.length_eq_zero.mp (by omega)
    exact ⟨htpp, fun _ => ⟨rfl, hp0⟩, fun hne2 => absurd hfe hne2⟩
  · rcases eq_or_ne m.tasks [] with he | hne
    · obtain ⟨hs0, hp0⟩ := hemp he
      refine ⟨htpp, fun hfe => ⟨hs0, hp0⟩, fun hne2 => ⟨?_, ?_⟩⟩
      · show m.currentPage * m.tasksPerPage ≤ m.selectedTask
        rw [hp0]
        omega
      · show m.selectedTask + 1 ≤
          min ((m.currentPage + 1) * m.tasksPerPage) fetched.length
        have hlenF : 0 < fetched.length := List.length_pos.mpr hne2
        rw [hs0, hp0]
        have e : (0 + 1) * m.tasksPerPage = m.tasksPerPage := by ring
        omega
    · obtain ⟨hlow, hhigh⟩ := hfull hne
      refine ⟨htpp, fun hfe => ?_, fun _ => ⟨hlow, ?_⟩⟩
      · exfalso
        have hlenOld : 0 < m.tasks.length := List.length_pos.mpr hne
        have hfe2 : fetched = [] := hfe
        have hzf : fetched.length = 0 := by
          rw [hfe2]
          rfl
        omega
      · show m.selectedTask + 1 ≤
          min ((m.currentPage + 1) * m.tasksPerPage) fetched.length
        omega

/-- One List Engine operation of the kind the (amended) C5 quantifies
over: selection moves, page moves, live-search keystrokes (escape, enter,
backspace, characters), opening the search box, and a refresh whose
re-fetched snapshot is at least as large as the currently displayed
view.  Resizes and shrinking refreshes are excluded: the counterexample
shows they break the invariant. -/
inductive ListStep : ListModel → ListModel → Prop where
  | up (m : ListModel) : ListStep m (moveSelectionUp m)
  | down {m m2 : ListModel} : moveSelectionDown m = some m2 → ListStep m m2
  | pagePrev (m : ListModel) : ListStep m (prevPage m)
  | pageNext {m m2 : ListModel} : nextPage m = some m2 → ListStep m m2
  | key (m : ListModel) (k : SearchKey) : ListStep m (handleSearchKeys m k)
  | openSearch (m : ListModel) : ListStep m (enterSearchMode m)
  | refresh (m : ListModel) (fetched : List Task) :
      m.tasks.length ≤ fetched.length → ListStep m (refreshTasks m fetched)

theorem selInv_step {m m2 : ListModel} (h : SelInv m)
    (hstep : ListStep m m2) : SelInv m2 := by
  cases hstep with
  | up => exact selInv_moveSelectionUp h
  | down hd => exact selInv_moveSelectionDown h hd
  | pagePrev => exact selInv_prevPage h
  | pageNext hn => exact selInv_nextPage h hn
  | key k => exact selInv_handleSearchKeys h k
  | openSearch => exact ⟨h.1, h.2.1, h.2.2⟩
  | refresh fetched hg => exact selInv_refreshTasks h fetched hg

/-- A minimal task with the given id, used to build concrete scenarios. -/
def simpleTask (n : Nat) : Task :=
  { id := n, title := str "t", project := [], jiraID := [], note := [],
    tags := [], priority := 0, status := str "todo" }

/-- Four tasks: enough for two pages at the minimum page size of 3. -/
def c5tasks : List Task :=
  [simpleTask 1, simpleTask 2, simpleTask 3, simpleTask 4]

/-- C5 counterexample: load four tasks, resize to the minimal page size 3,
move the selection down three times (reaching row 3 on page 1), then
resize to a height that gives page size 8.  The resize keeps selection
and page untouched, so the reached state has a non-empty list whose
selection index 3 lies below the visible page start 1*8 = 8 — the
invariant of the claim fails on a state reachable by the claim's own
operation list (which includes resize). -/
theorem c5_counterexample :
    ((((moveSelectionDown (updateWindowSize (NewListModel c5tasks) 100 15)).bind
          moveSelectionDown).bind moveSelectionDown).map
        (fun m2 => updateWindowSize m2 100 20)).any
      (fun mf => decide (mf.tasks ≠ [] ∧
        ¬(mf.currentPage * mf.tasksPerPage ≤ mf.selectedTask))) = true := by
  decide

/-- C5 (amended): starting from a freshly loaded model whose page size has
been initialised by a first resize, every state reachable by selection
moves, page moves, live-search keystrokes, escape, opening search, and
refreshes whose re-fetched snapshot is not smaller than the displayed
view keeps the selection inside the visible page whenever the filtered
list is non-empty.  (Resize events and shrinking refreshes are excluded:
the counterexample shows a resize breaks the invariant.) -/
theorem c5_selection_in_visible_page (tasks0 : List Task) (w h : Nat)
    (m : ListModel)
    (hreach : Relation.ReflTransGen ListStep
      (updateWindowSize (NewListModel tasks0) w h) m)
    (hne : m.tasks ≠ []) :
    m.currentPage * m.tasksPerPage ≤ m.selectedTask ∧
    m.selectedTask + 1 ≤
      min ((m.currentPage + 1) * m.tasksPerPage) m.tasks.length := by
  have hbase : SelInv (updateWindowSize (NewListModel tasks0) w h) := by
    refine selInv_reset_state ?_ rfl rfl
    show 1 ≤ (if h - 12 < 3 then 3 else h - 12)
    split_ifs <;> omega
  have hinv : SelInv m := by
    clear hne
    induction hreach with
    | refl => exact hbase
    | tail hsteps hstep ih => exact selInv_step ih hstep
  exact hinv.2.2 hne

/-- Witness for C5 (amended): one `up` step after load + resize. -/
theorem c5_selection_in_visible_page_witness :
    (moveSelectionUp (updateWindowSize (NewListModel c5tasks) 100 15)).tasks
        ≠ [] ∧
    ((moveSelectionUp (updateWindowSize (NewListModel c5tasks) 100 15)).currentPage *
        (moveSelectionUp (updateWindowSize (NewListModel c5tasks) 100 15)).tasksPerPage ≤
      (moveSelectionUp (updateWindowSize (NewListModel c5tasks) 100 15)).selectedTask ∧
     (moveSelectionUp (updateWindowSize (NewListModel c5tasks) 100 15)).selectedTask + 1 ≤
      min (((moveSelectionUp (updateWindowSize (NewListModel c5tasks) 100 15)).currentPage + 1) *
          (moveSelectionUp (updateWindowSize (NewListModel c5tasks) 100 15)).tasksPerPage)
        (moveSelectionUp (updateWindowSize (NewListModel c5tasks) 100 15)).tasks.length) :=
  ⟨by decide,
   c5_selection_in_visible_page c5tasks 100 15 _
     (Relation.ReflTransGen.tail Relation.ReflTransGen.refl (ListStep.up _))
     (by decide)⟩

/-- C6: Refresh replaces the displayed snapshot wholesale with the
freshly fetched one, clamps the selection exactly when it fell out of
range of the new (smaller) set, and alters nothing else: the search
query, the live and applied search flags, the focus, the current page
and the page size are the same after Refresh as before. -/
theorem c6_refresh_frame (m : ListModel) (fetched : List Task) :
    (refreshTasks m fetched).searchQuery = m.searchQuery ∧
    (refreshTasks m fetched).searchActive = m.searchActive ∧
    (refreshTasks m fetched).searchPersisted = m.searchPersisted ∧
    (refreshTasks m fetched).focus = m.focus ∧
    (refreshTasks m fetched).currentPage = m.currentPage ∧
    (refreshTasks m fetched).tasksPerPage = m.tasksPerPage ∧
    (refreshTasks m fetched).originalTasks = m.originalTasks ∧
    (refreshTasks m fetched).tasks = fetched ∧
    (refreshTasks m fetched).selectedTask =
      (if fetched.length ≤ m.selectedTask then
        (if 0 < fetched.length then fetched.length - 1 else 0)
       else m.selectedTask) := by
  rw [refreshTasks]
  dsimp only
  split_ifs with h1 h2 <;>
    exact ⟨rfl, rfl, rfl, rfl, rfl, rfl, rfl, rfl, rfl⟩

/-- C7: the stored duration of a stopped session is the elapsed
nanoseconds floored to whole seconds (characterised by the two floor
inequalities), and the big clock derives hours, minutes and seconds from
the elapsed time by integer division with minutes and seconds taken
modulo 60, so that h*3600 + m*60 + s reconstructs the elapsed whole
seconds. -/
theorem c7_duration_floor_and_clock (s : Session) (nowNs : Nat)
    (_hstart : s.startedAtNs ≤ nowNs) :
    (stopSessionAt s nowNs).durationSeconds * 1000000000 ≤
        nowNs - s.startedAtNs ∧
    nowNs - s.startedAtNs <
        ((stopSessionAt s nowNs).durationSeconds + 1) * 1000000000 ∧
    (stopSessionAt s nowNs).finishedAtNs = some nowNs ∧
    (∀ elapsedNs : Nat,
      renderBigClockHMS elapsedNs =
        (elapsedNs / 1000000000 / 3600,
         (elapsedNs / 1000000000 / 60) % 60,
         (elapsedNs / 1000000000) % 60) ∧
      (renderBigClockHMS elapsedNs).1 * 3600 +
        (renderBigClockHMS elapsedNs).2.1 * 60 +
        (renderBigClockHMS elapsedNs).2.2 = elapsedNs / 1000000000) := by
  refine ⟨?_, ?_, rfl, fun ns => ⟨?_, ?_⟩⟩
  · show (nowNs - s.startedAtNs) / 1000000000 * 1000000000 ≤
      nowNs - s.startedAtNs
    omega
  · show nowNs - s.startedAtNs <
      ((nowNs - s.startedAtNs) / 1000000000 + 1) * 1000000000
    omega
  · have e1 : ns / 1000000000 / 3600 = ns / 3600000000000 :=
      Nat.div_div_eq_div_mul ns 1000000000 3600
    have e2 : ns / 1000000000 / 60 = ns / 60000000000 :=
      Nat.div_div_eq_div_mul ns 1000000000 60
    simp only [renderBigClockHMS]
    rw [e1, e2]
  · have e1 : ns / 1000000000 / 3600 = ns / 3600000000000 :=
      Nat.div_div_eq_div_mul ns 1000000000 3600
    have e2 : ns / 1000000000 / 60 = ns / 60000000000 :=
      Nat.div_div_eq_div_mul ns 1000000000 60
    simp only [renderBigClockHMS]
    rw [← e1, ← e2]
    generalize ns / 1000000000 = sec
    omega

/-- A running session starting at time 0, for the C7 witness. -/
def sessionC7 : Session :=
  { id := 1, taskID := 1, startedAtNs := 0, finishedAtNs := none,
    durationSeconds := 0 }

/-- Witness for C7 at 1h 2m 3.456s of elapsed time. -/
theorem c7_duration_floor_and_clock_witness :
    sessionC7.startedAtNs ≤ 3723456000000 ∧
    (stopSessionAt sessionC7 3723456000000).durationSeconds * 1000000000 ≤
      3723456000000 - sessionC7.startedAtNs :=
  ⟨by decide,
   (c7_duration_floor_and_clock sessionC7 3723456000000 (by decide)).1⟩

/-- A session that is still running (no finish time). -/
def c8ActiveSession : Session :=
  { id := 1, taskID := 7, startedAtNs := 5, finishedAtNs := none,
    durationSeconds := 0 }

/-- A database with an active session but no task #1. -/
def c8db : DBState := { tasks := [], sessions := [c8ActiveSession] }

/-- C8 counterexample: a session is active, yet StartSession(1) returns
NotFound — not Conflict — because the task lookup precedes the
active-session check.  The claimed "Conflict iff some session is active"
fails when the task id does not exist. -/
theorem c8_counterexample :
    (∃ s ∈ c8db.sessions, s.finishedAtNs = none) ∧
    StartSession c8db 1 100 =
      Except.error (StartSessionError.notFound 1) := by
  constructor
  · exact ⟨c8ActiveSession, by decide, rfl⟩
  · rfl

/-- C8 (amended): when the requested task EXISTS, StartSession returns
Conflict exactly when some session is active (unfinished); on conflict
nothing is created (the function errors out before any insert, so the
database value is unchanged); with no active session it creates and
returns a new running session for that task, appended to the session
table. -/
theorem c8_start_session_conflict (db : DBState) (taskID nowNs : Nat)
    (htask : ∃ t ∈ db.tasks, t.id = taskID) :
    ((∃ s ∈ db.sessions, s.finishedAtNs = none) ↔
      ∃ a, StartSession db taskID nowNs =
        Except.error (StartSessionError.conflict a)) ∧
    ((¬∃ s ∈ db.sessions, s.finishedAtNs = none) →
      ∃ db2 sess, StartSession db taskID nowNs = Except.ok (db2, sess) ∧
        sess.taskID = taskID ∧ sess.startedAtNs = nowNs ∧
        sess.finishedAtNs = none ∧
        db2.tasks = db.tasks ∧ db2.sessions = db.sessions ++ [sess]) := by
  obtain ⟨t0, ht0m, ht0id⟩ := htask
  have htfind : (db.tasks.find? (fun t => t.id == taskID)).isSome := by
    rw [List.find?_isSome]
    exact ⟨t0, ht0m, by simp [ht0id]⟩
  obtain ⟨tf, htf⟩ := Option.isSome_iff_exists.mp htfind
  cases hs : db.sessions.find? (fun s => s.finishedAtNs == none) with
  | some active =>
    have hact : ∃ s ∈ db.sessions, s.finishedAtNs = none := by
      refine ⟨active, List.mem_of_find?_eq_some hs, ?_⟩
      have := List.find?_some hs
      simpa using this
    constructor
    · constructor
      · intro _
        refine ⟨active.taskID, ?_⟩
        rw [StartSession, htf, hs]
      · intro _
        exact hact
    · intro hno
      exact absurd hact hno
  | none =>
    have hnone : ¬∃ s ∈ db.sessions, s.finishedAtNs = none := by
      rw [List.find?_eq_none] at hs
      rintro ⟨s, hsm, hsf⟩
      exact hs s hsm (by simp [hsf])
    constructor
    · constructor
      · intro hact
        exact absurd hact hnone
      · rintro ⟨a, ha⟩
        rw [StartSession, htf, hs] at ha
        exact absurd ha (by simp)
    · intro _
      refine ⟨{ db with sessions := db.sessions ++
          [{ id := db.sessions.length + 1, taskID := taskID,
             startedAtNs := nowNs, finishedAtNs := none,
             durationSeconds := 0 }] },
        { id := db.sessions.length + 1, taskID := taskID,
          startedAtNs := nowNs, finishedAtNs := none, durationSeconds := 0 },
        ?_, rfl, rfl, rfl, rfl, rfl⟩
      rw [StartSession, htf, hs]

/-- A database holding task #1 and no session at all. -/
def c8dbOk : DBState := { tasks := [simpleTask 1], sessions := [] }

/-- Witness for C8 (amended): starting on an idle database with an
existing task does not conflict and creates a running session. -/
theorem c8_start_session_conflict_witness :
    (∃ t ∈ c8dbOk.tasks, t.id = 1) ∧
    ((¬∃ s ∈ c8dbOk.sessions, s.finishedAtNs = none) →
      ∃ db2 sess, StartSession c8dbOk 1 50 = Except.ok (db2, sess) ∧
        sess.taskID = 1 ∧ sess.startedAtNs = 50 ∧
        sess.finishedAtNs = none ∧
        db2.tasks = c8dbOk.tasks ∧ db2.sessions = c8dbOk.sessions ++ [sess]) :=
  ⟨⟨simpleTask 1, by decide, rfl⟩,
   (c8_start_session_conflict c8dbOk 1 50 ⟨simpleTask 1, by decide, rfl⟩).2⟩

/-- A shimmer state mid-sweep over an 8-character label: center 7, last
ticked at time 0, active and not paused, default configuration. -/
def shimmerMidSweep : ShimmerState :=
  { center := 7, lastUpdate := 0, active := true, visibleLen := 8,
    config := DefaultShimmerConfig, supportsTrueColor := true,
    isPaused := false, pauseStartTime := 0 }

/-- C9 counterexample: an Update step taken while Active and not Paused
DECREASES the center when the rendered label shrinks (here from 8 to 4
characters, e.g. after a resize truncates the title): the end-of-sweep
clamp snaps the center from 7 down to the new maxCenter 5.  The claimed
unconditional monotonicity fails. -/
theorem c9_counterexample :
    shimmerMidSweep.active = true ∧ shimmerMidSweep.isPaused = false ∧
    (shimmerMidSweep.update 100 4).center < shimmerMidSweep.center := by
  refine ⟨rfl, rfl, ?_⟩
  show (shimmerMidSweep.update 100 4).center < 7
  norm_num [ShimmerState.update, shimmerMidSweep, DefaultShimmerConfig]

/-- C9 (amended): an Update step taken while Active and not Paused never
decreases the center PROVIDED the sweep range of the current call still
reaches the center (true in particular whenever the label length passed
to Update has not shrunk mid-sweep); and Reset, from any state at any
time, sets the center to 0 and clears the paused flag. -/
theorem c9_shimmer_monotone_and_reset (s : ShimmerState) (nowMs : ℚ)
    (visibleLen : Int) (_hact : s.active = true) (hpause : s.isPaused = false)
    (hspeed : 0 < s.config.speedMs) (hcycle : 0 < s.config.cycleMs)
    (hratio : 0 ≤ s.config.widthFrac)
    (hcen : s.center ≤
      (visibleLen : ℚ) + (visibleLen : ℚ) * s.config.widthFrac) :
    s.center ≤ (s.update nowMs visibleLen).center ∧
    (∀ (s2 : ShimmerState) (t : ℚ),
      (s2.reset t).center = 0 ∧ (s2.reset t).isPaused = false) := by
  refine ⟨?_, fun s2 t => ⟨rfl, rfl⟩⟩
  rw [ShimmerState.update]
  dsimp only
  split_ifs with h1 h2 h3 h4 h5 h6
  · exact le_refl _
  · exact le_refl _
  · exact le_refl _
  · exact absurd h4 (by rw [hpause]; simp)
  · exact absurd h4 (by rw [hpause]; simp)
  · show s.center ≤ (visibleLen : ℚ) + (visibleLen : ℚ) * s.config.widthFrac
    exact hcen
  · show s.center ≤ s.center +
      (visibleLen : ℚ) * (1 + 2 * s.config.widthFrac) /
        (s.config.cycleMs / s.config.speedMs)
    have hlenZ : 0 < visibleLen := by omega
    have hlenQ : (0 : ℚ) < (visibleLen : ℚ) := by exact_mod_cast hlenZ
    have hv : 0 ≤ (visibleLen : ℚ) * (1 + 2 * s.config.widthFrac) /
        (s.config.cycleMs / s.config.speedMs) := by
      apply div_nonneg
      · apply mul_nonneg hlenQ.le
        linarith
      · exact div_nonneg hcycle.le hspeed.le
    linarith

/-- A freshly created shimmer state (center 0) with the default
configuration. -/
def shimmerFresh : ShimmerState :=
  NewShimmerState DefaultShimmerConfig 0 true

/-- Witness for C9 (amended) at a fresh state over an 8-character
label. -/
theorem c9_shimmer_monotone_and_reset_witness :
    shimmerFresh.active = true ∧ shimmerFresh.isPaused = false ∧
    (0 : ℚ) < shimmerFresh.config.speedMs ∧
    (0 : ℚ) < shimmerFresh.config.cycleMs ∧
    (0 : ℚ) ≤ shimmerFresh.config.widthFrac ∧
    shimmerFresh.center ≤
      ((8 : Int) : ℚ) + ((8 : Int) : ℚ) * shimmerFresh.config.widthFrac ∧
    shimmerFresh.center ≤ (shimmerFresh.update 100 8).center :=
  ⟨rfl, rfl, by norm_num [shimmerFresh, NewShimmerState, DefaultShimmerConfig],
   by norm_num [shimmerFresh, NewShimmerState, DefaultShimmerConfig],
   by norm_num [shimmerFresh, NewShimmerState, DefaultShimmerConfig],
   by norm_num [shimmerFresh, NewShimmerState, DefaultShimmerConfig],
   (c9_shimmer_monotone_and_reset shimmerFresh 100 8 rfl rfl
     (by norm_num [shimmerFresh, NewShimmerState, DefaultShimmerConfig])
     (by norm_num [shimmerFresh, NewShimmerState, DefaultShimmerConfig])
     (by norm_num [shimmerFresh, NewShimmerState, DefaultShimmerConfig])
     (by norm_num [shimmerFresh, NewShimmerState, DefaultShimmerConfig])).1⟩

/-- C10: the two page computations (`nextPage`, and the `maxPages` line
of `moveSelectionDown`) divide by the page size and are division-safe
exactly when tasksPerPage ≥ 1; `NewListModel` leaves tasksPerPage at its
Go zero value and only a resize sets it (to at least 3); hence a 'right'
key on a non-empty freshly loaded list — or a 'down' key whenever the
selection can advance — reaches a division by zero before the first
WindowSizeMsg. -/
theorem c10_division_by_page_size (m : ListModel) (ts : List Task)
    (w h : Nat) :
    (NewListModel ts).tasksPerPage = 0 ∧
    3 ≤ (updateWindowSize m w h).tasksPerPage ∧
    (m.tasksPerPage = 0 →
      nextPage m = none ∧
      (m.selectedTask < m.tasks.length - 1 → moveSelectionDown m = none)) ∧
    (1 ≤ m.tasksPerPage →
      (∃ m2, nextPage m = some m2) ∧
      (∃ m2, moveSelectionDown m = some m2)) ∧
    (ts ≠ [] → nextPage (NewListModel ts) = none) := by
  refine ⟨rfl, ?_, ?_, ?_, ?_⟩
  · show 3 ≤ (if h - 12 < 3 then 3 else h - 12)
    split_ifs <;> omega
  · intro h0
    constructor
    · rw [nextPage, if_pos h0]
    · intro hlt
      rw [moveSelectionDown]
      dsimp only
      rw [if_pos hlt, if_pos h0]
  · intro h1
    constructor
    · rw [nextPage]
      dsimp only
      rw [if_neg (by omega : ¬m.tasksPerPage = 0)]
      split_ifs <;> exact ⟨_, rfl⟩
    · rw [moveSelectionDown]
      dsimp only
      split_ifs with ha hb hc
      · exact absurd hb (by omega)
      · exact ⟨_, rfl⟩
      · exact ⟨_, rfl⟩
      · exact ⟨_, rfl⟩
  · intro hne
    rw [nextPage, if_pos (show (NewListModel ts).tasksPerPage = 0 from rfl)]

/-- Witness for C10: the 'right' key divides by zero on a freshly loaded
non-empty list, and is safe after a resize. -/
theorem c10_division_by_page_size_witness :
    nextPage (NewListModel c5tasks) = none ∧
    (∃ m2, nextPage mC4 = some m2) :=
  ⟨((c10_division_by_page_size (NewListModel c5tasks) c5tasks 100 15).2.2.1
      rfl).1,
   ((c10_division_by_page_size mC4 c5tasks 100 15).2.2.2.1 (by decide)).1⟩

end Wrok
